import Mathlib

/-!
Verification development for the php-diagls language server.

The definitions below are shallow embeddings of the Go source:

* `internal/utils/utils.go` — `ApplyUnifiedDiff`, `EnsureDiagnosticsArray`;
* `internal/diagnostics/phpcsfixer.go` — `PhpCsFixer.parseDiffForDiagnostics`,
  the exit-code handling of `PhpCsFixer.Format`;
* `internal/container` (process gateway) — `RunCommandInContainer`;
* `internal/server/server.go` — `collectDiagnostics`, `publishDiagnostics`.

Go strings and byte slices are modelled as `List Char` (all inputs of
interest are ASCII); a Go slice value that may be `nil` is modelled as an
`Option` of its contents.  Machine integers that can go negative (`int`)
are modelled as `Int`, with the Go `uint32(...)` conversion made explicit
as reduction modulo `2 ^ 32`.
-/

namespace PhpDiagls

/-- Embedding of Go `strings.Split(s, "\n")` on rune lists: splits at every
newline; the empty input yields one empty field, matching Go. -/
def splitNL : List Char → List (List Char)
  | [] => [[]]
  | c :: cs =>
    match splitNL cs, decide (c = '\n') with
    | gs, true => [] :: gs
    | [], false => [[c]]
    | g :: gs, false => (c :: g) :: gs

/-- Embedding of Go `strings.Join(xs, "\n")`. -/
def joinNL : List (List Char) → List Char
  | [] => []
  | [g] => g
  | g :: gs => g ++ '\n' :: joinNL gs

/-- Whitespace class of Go's regexp `\s` (`[\t\n\f\r ]`). -/
def isWS (c : Char) : Bool :=
  c = ' ' || c = '\t' || c = '\n' || c = '\x0c' || c = '\r'

/-- Digit class of Go's regexp `\d` (`[0-9]`). -/
def isDigit (c : Char) : Bool :=
  '0' ≤ c && c ≤ '9'

/-- Embedding of Go `strconv.Atoi` restricted to the capture groups of the
hunk-header regexp, which are digit-only: fails exactly on the empty
string (a skipped optional group), otherwise returns the decimal value. -/
def atoiDigits (l : List Char) : Option Nat :=
  match l with
  | [] => none
  | _ => some (l.foldl (fun acc c => acc * 10 + (c.toNat - '0'.toNat)) 0)

/-- Tries to match the regexp `@@\s+-(\d+),(\d+)?\s+\+(\d+),(\d+)?\s+@@`
at the start of `l`, returning the four capture groups (an optional group
that does not participate is returned as `[]`, which is exactly what Go's
`FindStringSubmatch` reports and what makes the later `Atoi` fail).
Greedy matching without backtracking is equivalent to the regexp here
because each `\d+`/`\s+` run is followed by a character outside its own
class. -/
def matchHunkAt (l : List Char) : Option (List Char × List Char × List Char × List Char) :=
  match l with
  | '@' :: '@' :: r =>
    let ws1 := r.takeWhile isWS
    if ws1.isEmpty then none else
    match r.dropWhile isWS with
    | '-' :: r2 =>
      let g1 := r2.takeWhile isDigit
      if g1.isEmpty then none else
      match r2.dropWhile isDigit with
      | ',' :: r4 =>
        let g2 := r4.takeWhile isDigit
        let r5 := r4.dropWhile isDigit
        let ws2 := r5.takeWhile isWS
        if ws2.isEmpty then none else
        match r5.dropWhile isWS with
        | '+' :: r7 =>
          let g3 := r7.takeWhile isDigit
          if g3.isEmpty then none else
          match r7.dropWhile isDigit with
          | ',' :: r9 =>
            let g4 := r9.takeWhile isDigit
            let r10 := r9.dropWhile isDigit
            let ws3 := r10.takeWhile isWS
            if ws3.isEmpty then none else
            match r10.dropWhile isWS with
            | '@' :: '@' :: _ => some (g1, g2, g3, g4)
            | _ => none
          | _ => none
        | _ => none
      | _ => none
    | _ => none
  | _ => none

/-- Embedding of `re.FindStringSubmatch` for the hunk-header regexp:
returns the captures of the leftmost match, or `none` when the line does
not contain a match anywhere. -/
def findHunk : List Char → Option (List Char × List Char × List Char × List Char)
  | [] => none
  | c :: rest =>
    match matchHunkAt (c :: rest) with
    | some caps => some caps
    | none => findHunk rest

/-- Holds when the line begins with three copies of `c`; embeds Go
`strings.HasPrefix(line, "---")` / `"+++"`. -/
def startsWith3 (c : Char) (l : List Char) : Bool :=
  match l with
  | a :: b :: d :: _ => a = c && b = c && d = c
  | _ => false

/-- Holds when the line begins with `"@@"`. -/
def startsAtAt (l : List Char) : Bool :=
  match l with
  | a :: b :: _ => a = '@' && b = '@'
  | _ => false

/-- The per-line walk of Go `ApplyUnifiedDiff` (`internal/utils/utils.go`):
`origLines` are the lines of the original content, the first list argument
is the remaining diff lines, `olns` is `originalLineNum`, and `result` is
the accumulated output.  A hunk header copies the untouched original lines
up to the hunk start; a context line copies the current original line and
advances; a removed line only advances; an added line emits its text. -/
def applyWalk (origLines : List (List Char)) :
    List (List Char) → Nat → List (List Char) → List (List Char)
  | [], olns, result => result ++ origLines.drop olns
  | dl :: rest, olns, result =>
    if startsWith3 '-' dl || startsWith3 '+' dl then
      applyWalk origLines rest olns result
    else if startsAtAt dl then
      match findHunk dl with
      | some (g1, _, _, _) =>
        match atoiDigits g1 with
        | some startLine =>
          let t := min (startLine - 1) origLines.length
          applyWalk origLines rest (max olns t)
            (result ++ (origLines.drop olns).take (t - olns))
        | none => applyWalk origLines rest olns result
      | none => applyWalk origLines rest olns result
    else
      match dl with
      | [] => applyWalk origLines rest olns result
      | c :: tl =>
        if c = ' ' then
          if olns < origLines.length then
            applyWalk origLines rest (olns + 1) (result ++ (origLines.drop olns).take 1)
          else
            applyWalk origLines rest olns result
        else if c = '-' then
          if olns < origLines.length then
            applyWalk origLines rest (olns + 1) result
          else
            applyWalk origLines rest olns result
        else if c = '+' then
          applyWalk origLines rest olns (result ++ [tl])
        else
          applyWalk origLines rest olns result

/-- Embedding of Go `ApplyUnifiedDiff(originalContent, diff)` from
`internal/utils/utils.go`: splits both arguments on newlines, walks the
diff, copies the remaining original lines, and joins the result.  The Go
function returns a `nil` error on every path, modelled by the constantly
`none` second component. -/
def ApplyUnifiedDiff (originalContent diff : String) : String × Option String :=
  (⟨joinNL (applyWalk (splitNL originalContent.data) (splitNL diff.data) 0 [])⟩, none)

/-- Space class of Go `unicode.IsSpace` restricted to Latin-1 (the inputs
of interest are ASCII): space, tab, newline, vertical tab, form feed,
carriage return, NEL and NBSP. -/
def isGoSpace (c : Char) : Bool :=
  c = ' ' || c = '\t' || c = '\n' || c = '\x0b' || c = '\x0c' || c = '\r' ||
    c = '\x85' || c = '\xa0'

/-- Embedding of Go `strings.TrimSpace`: removes leading and trailing
whitespace. -/
def trimSpace (l : List Char) : List Char :=
  ((l.dropWhile isGoSpace).reverse.dropWhile isGoSpace).reverse

/-- Go's `uint32(i)` conversion applied to an `int` value: reduction
modulo `2 ^ 32`. -/
def u32 (i : Int) : Nat :=
  (i % 4294967296).toNat

/-- Mirror of `protocol.Position` (line and character are `uint32`). -/
structure Position where
  line : Nat
  character : Nat
deriving DecidableEq, Repr

/-- Mirror of `protocol.Range`. -/
structure LspRange where
  start : Position
  stop : Position
deriving DecidableEq, Repr

/-- The per-line walk of `PhpCsFixer.parseDiffForDiagnostics`
(`internal/diagnostics/phpcsfixer.go`): state is `originalLineNum`,
`originalColNum` (Go `int`s, hence `Int`), `lineChange`, and the ranges
accumulated so far.  A hunk header re-seeds `originalLineNum` from capture
1 and `originalColNum` from capture 2 (each minus one, and only when
`Atoi` succeeds); a removed line emits a range on the current line from
`originalColNum` to the trimmed length of the removed text; an added line
emits a zero-width range only when no removal was seen yet
(`lineChange`); context lines only advance the line counter. -/
def parseWalk :
    List (List Char) → Int → Int → Bool → List LspRange → List LspRange
  | [], _, _, _, acc => acc
  | dl :: rest, olns, col, lineChange, acc =>
    if startsWith3 '-' dl || startsWith3 '+' dl then
      parseWalk rest olns col lineChange acc
    else if startsAtAt dl then
      match findHunk dl with
      | some (g1, g2, _, _) =>
        let olns2 := match atoiDigits g1 with
          | some n => (n : Int) - 1
          | none => olns
        let col2 := match atoiDigits g2 with
          | some n => (n : Int) - 1
          | none => col
        parseWalk rest olns2 col2 lineChange acc
      | none => parseWalk rest olns col lineChange acc
    else
      match dl with
      | [] => parseWalk rest olns col lineChange acc
      | c :: tl =>
        if c = '-' then
          let r : LspRange :=
            { start := { line := u32 olns, character := u32 col },
              stop := { line := u32 olns,
                        character := u32 ((trimSpace tl).length : Int) } }
          parseWalk rest (olns + 1) col true (acc ++ [r])
        else if c = '+' then
          let acc2 :=
            if lineChange then acc
            else acc ++ [{ start := { line := u32 olns, character := u32 col },
                           stop := { line := u32 olns, character := u32 col } }]
          parseWalk rest (olns + 1) col lineChange acc2
        else if c = ' ' then
          parseWalk rest (olns + 1) col lineChange acc
        else
          parseWalk rest olns col lineChange acc

/-- Embedding of `PhpCsFixer.parseDiffForDiagnostics(diff)` from
`internal/diagnostics/phpcsfixer.go` (the `Diagnose` operation of the
spec): splits the diff on newlines and walks it with
`originalLineNum = 0`, `originalColNum = 0`, `lineChange = false`. -/
def parseDiffForDiagnostics (diff : String) : List LspRange :=
  parseWalk (splitNL diff.data) 0 0 false []

/-- Error values produced by `RunCommandInContainer`
(`internal/container`).  The Go code builds them with `fmt.Errorf` and
`%w` wrapping, so their provenance stays structurally distinguishable;
the three constructors mirror the three `Err` assignments in the source:
start failure, a non-`ExitError` failure from `Wait`, and context
cancellation (wrapping `ctx.Err()`). -/
inductive GoErr
  | startFailed (inner : String)
  | waitFailed (inner : String)
  | cancelled (ctxErr : String)
deriving DecidableEq, Repr

/-- Mirror of the `container.CommandResult` struct: stdout/stderr byte
slices (nilable, hence `Option`), exit code and error. -/
structure CommandResult where
  Stdout : Option (List Char)
  Stderr : Option (List Char)
  ExitCode : Int
  Err : Option GoErr
deriving DecidableEq, Repr

/-- What `cmd.Wait()` (read from the `done` channel) reported:
`ok` is a `nil` error (exit status 0), `exitStatus` is an
`*exec.ExitError` carrying the exit code, `waitErr` is any other error. -/
inductive CmdWaitResult
  | ok
  | exitStatus (code : Int)
  | waitErr (msg : String)
deriving DecidableEq, Repr

/-- Which arm of the `select` in `RunCommandInContainer` fires first:
normal completion on the `done` channel, or `ctx.Done()` with the
context's error. -/
inductive RaceOutcome
  | completed (w : CmdWaitResult)
  | ctxCancelled (ctxErr : String)
deriving DecidableEq, Repr

/-- Abstraction of the external world for one gateway invocation: whether
`cmd.Start()` fails, which `select` arm fires, and the bytes sitting in
the stdout/stderr buffers at return time. -/
structure ExecEnv where
  startErr : Option String
  outcome : RaceOutcome
  stdoutBytes : List Char
  stderrBytes : List Char
deriving DecidableEq, Repr

/-- Process-management effects of one gateway invocation, recorded in
order: spawning the process, `cmd.Process.Kill()`, and the final receive
from the `done` channel (i.e. waiting for `cmd.Wait` to return). -/
inductive ProcEvent
  | start
  | kill
  | waitDone
deriving DecidableEq, Repr

/-- Go `bytes.Buffer.Bytes()`: returns `nil` for a buffer that was never
written to, otherwise the accumulated bytes. -/
def bufBytes (contents : List Char) : Option (List Char) :=
  if contents.isEmpty then none else some contents

/-- Embedding of `RunCommandInContainer(ctx, containerName, containerCmd,
stdin...)` (`internal/container`).  `containerName`, `containerCmd` and
`stdin` shape the spawned command line but not the structure of the
result; `env` abstracts the context and the external process.  Returns
the `CommandResult` together with the ordered process-management events:
on start failure the result carries literal `nil` buffers and exit code
-1; on completion the exit code is 0, the `ExitError` code (with `nil`
error), or -1 with the `Wait` error; on cancellation the process is
killed, the `done` channel is drained, and the result carries a
cancellation error wrapping `ctx.Err()` plus whatever the buffers hold. -/
def RunCommandInContainer (containerName containerCmd : String)
    (stdin : Option String) (env : ExecEnv) : CommandResult × List ProcEvent :=
  match env.startErr with
  | some e =>
    ({ Stdout := none, Stderr := none, ExitCode := -1,
       Err := some (GoErr.startFailed e) }, [ProcEvent.start])
  | none =>
    match env.outcome with
    | RaceOutcome.completed CmdWaitResult.ok =>
      ({ Stdout := bufBytes env.stdoutBytes, Stderr := bufBytes env.stderrBytes,
         ExitCode := 0, Err := none },
       [ProcEvent.start, ProcEvent.waitDone])
    | RaceOutcome.completed (CmdWaitResult.exitStatus code) =>
      ({ Stdout := bufBytes env.stdoutBytes, Stderr := bufBytes env.stderrBytes,
         ExitCode := code, Err := none },
       [ProcEvent.start, ProcEvent.waitDone])
    | RaceOutcome.completed (CmdWaitResult.waitErr msg) =>
      ({ Stdout := bufBytes env.stdoutBytes, Stderr := bufBytes env.stderrBytes,
         ExitCode := -1, Err := some (GoErr.waitFailed msg) },
       [ProcEvent.start, ProcEvent.waitDone])
    | RaceOutcome.ctxCancelled ce =>
      ({ Stdout := bufBytes env.stdoutBytes, Stderr := bufBytes env.stderrBytes,
         ExitCode := -1, Err := some (GoErr.cancelled ce) },
       [ProcEvent.start, ProcEvent.kill, ProcEvent.waitDone])

/-- Errors surfaced by `PhpCsFixer.Format`
(`internal/diagnostics/phpcsfixer.go`), one constructor per `fmt.Errorf`
site. -/
inductive FormatErr
  | notEnabled
  | cancelled (ctxErr : String)
  | commandFailed (e : GoErr)
  | exitFailure (code : Int)
  | applyFailed (e : String)
deriving DecidableEq, Repr

/-- The tail of `PhpCsFixer.Format` after the exit-code checks: trims the
captured stdout (a `nil` slice converts to the empty string), returns the
content unchanged for an empty diff, and otherwise applies the unified
diff. -/
def phpCsFixerApplyStage (content : String) (stdout : Option (List Char)) :
    String × Option FormatErr :=
  let diffStr : String := ⟨trimSpace (stdout.getD [])⟩
  if diffStr = "" then (content, none)
  else
    match ApplyUnifiedDiff content diffStr with
    | (formatted, none) => (formatted, none)
    | (_, some e) => (content, some (FormatErr.applyFailed e))

/-- Embedding of the result handling in `PhpCsFixer.Format(ctx, filePath,
content)`: with formatting disabled the content is returned with an
error; a gateway error is reported as cancellation when the context is
done and as a command failure otherwise; exit code 8 (changes found) and
exit code 0 both proceed to diff application; any other exit code returns
the content with a structural exit-code error.  `ctxErr` models the value
of `ctx.Err()` at the check. -/
def phpCsFixerFormat (formatEnabled : Bool) (content : String)
    (ctxErr : Option String) (result : CommandResult) : String × Option FormatErr :=
  if !formatEnabled then (content, some FormatErr.notEnabled)
  else
    match result.Err with
    | some e =>
      match ctxErr with
      | some ce => (content, some (FormatErr.cancelled ce))
      | none => (content, some (FormatErr.commandFailed e))
    | none =>
      if result.ExitCode = 8 then phpCsFixerApplyStage content result.Stdout
      else if result.ExitCode ≠ 0 then (content, some (FormatErr.exitFailure result.ExitCode))
      else phpCsFixerApplyStage content result.Stdout

/-- Mirror of `protocol.Diagnostic`: range, severity, source label,
machine-readable code and human message. -/
structure Diagnostic where
  range : LspRange
  severity : Nat
  source : String
  message : String
  code : String
deriving DecidableEq, Repr

/-- Embedding of `utils.EnsureDiagnosticsArray`
(`internal/utils/utils.go`): a Go diagnostics slice is `Option (List
Diagnostic)` with `none` for the `nil` slice; the function replaces `nil`
by a fresh empty slice and returns any other slice unchanged. -/
def EnsureDiagnosticsArray (diagnostics : Option (List Diagnostic)) :
    Option (List Diagnostic) :=
  match diagnostics with
  | none => some []
  | some l => some l

/-- Mirror of `protocol.PublishDiagnosticsParams`. -/
structure PublishDiagnosticsParams where
  URI : String
  Diagnostics : Option (List Diagnostic)
deriving DecidableEq, Repr

/-- Embedding of `Server.publishDiagnostics`
(`internal/server/server.go`): the notification parameters sent to the
client, with the diagnostics list passed through
`EnsureDiagnosticsArray`.  The transport call itself only logs on
failure and is not modelled. -/
def publishDiagnostics (uri : String) (diagnostics : Option (List Diagnostic)) :
    PublishDiagnosticsParams :=
  { URI := uri, Diagnostics := EnsureDiagnosticsArray diagnostics }

/-- One enabled provider together with what its `Analyze(filePath)` call
returns for the file under analysis: either the diagnostics list or an
error. -/
structure ProviderRun where
  name : String
  analyzeResult : Except String (List Diagnostic)
deriving Repr

/-- The directory fragments `collectDiagnostics` skips
(`internal/server/server.go`). -/
def ignoredDirs : List String := ["/vendor/", "/var/cache/"]

/-- Embedding of Go `strings.Contains(s, pat)`: `pat` occurs as a
contiguous subsequence of `s` (always true for an empty `pat`). -/
def containsSeq (pat : List Char) : List Char → Bool
  | [] => pat.isEmpty
  | c :: rest => pat.isPrefixOf (c :: rest) || containsSeq pat rest

/-- Embedding of the ignore test in `collectDiagnostics`:
`strings.Contains(filePath, dir)` for each ignored directory. -/
def pathIgnored (filePath : String) : Bool :=
  ignoredDirs.any (fun d => containsSeq d.data filePath.data)

/-- Embedding of `Server.collectDiagnostics(ctx, filePath)`
(`internal/server/server.go`).  Paths under an ignored directory return
no diagnostics without invoking any provider, as does an empty provider
list.  Otherwise every provider runs; the list order of `runs` stands for
the completion order of the per-provider goroutines (each appends its
results atomically under the mutex, so one invocation corresponds to
running this fold over some permutation of the enabled providers).  A
failing provider contributes a window error message and no diagnostics; a
succeeding provider appends its diagnostics.  Returns the aggregated
diagnostics and the side-channel messages.  `collectStep` is the body of
the per-provider goroutine: on error it emits the window message built
with `fmt.Sprintf` in the source and keeps the diagnostics unchanged, on
success it appends the provider's diagnostics. -/
def collectStep (acc : List Diagnostic × List String) (r : ProviderRun) :
    List Diagnostic × List String :=
  match r.analyzeResult with
  | Except.ok ds => (acc.1 ++ ds, acc.2)
  | Except.error e =>
    (acc.1, acc.2 ++ ["Diagnostics provider " ++ r.name ++ " failed: " ++ e])

/-- Embedding of `Server.collectDiagnostics(ctx, filePath)` proper: the
ignore check, the empty-provider check, and the fan-out/fan-in fold. -/
def collectDiagnostics (filePath : String) (runs : List ProviderRun) :
    List Diagnostic × List String :=
  if pathIgnored filePath then ([], [])
  else if runs.isEmpty then ([], [])
  else runs.foldl collectStep ([], [])

/-- The diagnostics a provider run contributes: `some` of its list on
success, `none` on failure. -/
def okDiags (r : ProviderRun) : Option (List Diagnostic) :=
  match r.analyzeResult with
  | Except.ok ds => some ds
  | Except.error _ => none

/-- The warning message a provider run contributes: `some` of the window
message on failure, `none` on success. -/
def failMsg (r : ProviderRun) : Option String :=
  match r.analyzeResult with
  | Except.ok _ => none
  | Except.error e => some ("Diagnostics provider " ++ r.name ++ " failed: " ++ e)

/-- The two operation kinds scheduled per document. -/
inductive OpKind
  | diagnostics
  | formatting
deriving DecidableEq, Repr

/-- Scheduling key: (document URI, operation kind). -/
structure SchedKey where
  uri : String
  kind : OpKind
deriving DecidableEq, Repr

/-- Modelled from the spec: the debounced scheduler with generation
fencing (spec section 4.2 and the `diagTimers`/`diagGen`/`fmtTimers`/
`fmtGen` fields documented by the server tests) is not part of the
sources under `src/`; only its tests and the spec describe it.  State of
one scheduler: the per-key generation counter, the per-key pending timer
(holding the identifier of the scheduled operation), the generation
captured by each operation at schedule time, and the operations whose
timer has fired and whose work is running. -/
structure SchedState where
  gen : SchedKey → Nat
  pending : SchedKey → Option Nat
  opGen : Nat → Option (SchedKey × Nat)
  running : Nat → Option (SchedKey × Nat)

/-- Events of a scheduler history: `schedule k o` issues operation `o`
for key `k` (cancelling any pending timer for `k`, incrementing the
generation and capturing it), `fire k o` is the timer of `o` firing
(possible only while `o` is the pending timer of `k`), and `finish o` is
the completion of `o`'s work, at which point the generation fence decides
publication. -/
inductive SchedEvent
  | schedule (k : SchedKey) (o : Nat)
  | fire (k : SchedKey) (o : Nat)
  | finish (o : Nat)
deriving DecidableEq, Repr

/-- A result published to the client: which key it is for and which
scheduled operation computed it. -/
structure Publication where
  key : SchedKey
  opId : Nat
deriving DecidableEq, Repr

/-- Scheduler state before any event. -/
def initState : SchedState :=
  { gen := fun _ => 0, pending := fun _ => none,
    opGen := fun _ => none, running := fun _ => none }

/-- Modelled from the spec: one transition of the scheduler (spec section
4.2; the scheduler code itself is absent from `src/`).  `schedule`
replaces the pending timer of its key, increments the key's generation
and records it as the operation's captured generation; `fire` moves a
still-pending operation into the running set; `finish` removes a running
operation and publishes its result exactly when its captured generation
still equals the key's current generation.  Events whose precondition
fails (firing a replaced timer, finishing an operation that never ran)
are no-ops. -/
def step (s : SchedState) (e : SchedEvent) : SchedState × Option Publication :=
  match e with
  | SchedEvent.schedule k o =>
    let g := s.gen k + 1
    ({ gen := fun k2 => if k2 = k then g else s.gen k2,
       pending := fun k2 => if k2 = k then some o else s.pending k2,
       opGen := fun o2 => if o2 = o then some (k, g) else s.opGen o2,
       running := s.running }, none)
  | SchedEvent.fire k o =>
    if s.pending k = some o then
      match s.opGen o with
      | some kg =>
        ({ s with
            pending := fun k2 => if k2 = k then none else s.pending k2,
            running := fun o2 => if o2 = o then some kg else s.running o2 }, none)
      | none => (s, none)
    else (s, none)
  | SchedEvent.finish o =>
    match s.running o with
    | some (k, g) =>
      ({ s with running := fun o2 => if o2 = o then none else s.running o2 },
       if s.gen k = g then some { key := k, opId := o } else none)
    | none => (s, none)

/-- Runs a scheduler history from a state, collecting the publications in
order. -/
def runTrace (s : SchedState) : List SchedEvent → SchedState × List Publication
  | [] => (s, [])
  | e :: es =>
    let sp := step s e
    let rest := runTrace sp.1 es
    (rest.1, sp.2.toList ++ rest.2)

/-- Recognizes a `schedule` event of operation `o` (for any key). -/
def isScheduleOf (o : Nat) : SchedEvent → Bool
  | SchedEvent.schedule _ o2 => o2 = o
  | _ => false

/-- A diff line that neither Go diff walker acts on: a `---`/`+++` file
header, an empty line, or a line whose first character is none of `' '`,
`'-'`, `'+'` (this includes `@@` hunk headers, which move the cursors but
emit nothing). -/
def inertDiffLine (l : List Char) : Bool :=
  startsWith3 '-' l || startsWith3 '+' l ||
    (match l with
     | [] => true
     | c :: _ => !(c = ' ' || c = '-' || c = '+'))

/-- Sample diagnostic of a style-fixer provider, used to instantiate the
aggregation theorems on concrete inputs. -/
def diagA : Diagnostic :=
  { range := { start := { line := 0, character := 0 },
               stop := { line := 0, character := 3 } },
    severity := 2, source := "php-cs-fixer",
    message := "Arrays should use the short syntax", code := "array_syntax" }

/-- Sample diagnostic of a static-analysis provider. -/
def diagB : Diagnostic :=
  { range := { start := { line := 9, character := 0 },
               stop := { line := 9, character := 100 } },
    severity := 1, source := "phpstan",
    message := "Variable $foo might not be defined", code := "variable.undefined" }

/-- A provider run that succeeds with one diagnostic. -/
def runA : ProviderRun :=
  { name := "php-cs-fixer", analyzeResult := Except.ok [diagA] }

/-- A provider run that fails. -/
def runB : ProviderRun :=
  { name := "phplint", analyzeResult := Except.error "container not running" }

/-- A second succeeding provider run. -/
def runD : ProviderRun :=
  { name := "phpstan", analyzeResult := Except.ok [diagB] }

/-- Sample scheduling key. -/
def demoKey : SchedKey :=
  { uri := "file:///src/App.php", kind := OpKind.diagnostics }

/-- Sample scheduler state with operation 1 running for `demoKey` at
captured generation 5. -/
def demoState : SchedState :=
  { gen := fun _ => 5, pending := fun _ => none, opGen := fun _ => none,
    running := fun o => if o = 1 then some (demoKey, 5) else none }

/- Helper lemmas. -/

theorem splitNL_ne_nil (l : List Char) : splitNL l ≠ [] := by
  induction l with
  | nil => simp [splitNL]
  | cons c cs ih =>
    simp only [splitNL]
    rcases h : splitNL cs with _ | ⟨g, gs⟩
    · cases decide (c = '\n') <;> simp
    · cases decide (c = '\n') <;> simp

theorem joinNL_splitNL (l : List Char) : joinNL (splitNL l) = l := by
  induction l with
  | nil => rfl
  | cons c cs ih =>
    simp only [splitNL]
    rcases h : splitNL cs with _ | ⟨g, gs⟩
    · exact absurd h (splitNL_ne_nil cs)
    · rcases hd : decide (c = '\n') with _ | _
      · simp only []
        rcases gs with _ | ⟨g2, gs2⟩
        · simp only [joinNL]
          rw [h] at ih
          simp only [joinNL] at ih
          simp [ih]
        · simp only [joinNL]
          rw [h] at ih
          simp only [joinNL] at ih
          simp [ih]
      · have hc : c = '\n' := of_decide_eq_true hd
        simp only [joinNL]
        rw [h] at ih
        subst hc
        simp [ih]

theorem string_mk_data (s : String) : (⟨s.data⟩ : String) = s := by
  cases s
  rfl

theorem splitNL_length_pos (l : List Char) : 0 < (splitNL l).length := by
  rcases h : splitNL l with _ | ⟨g, gs⟩
  · exact absurd h (splitNL_ne_nil l)
  · simp

theorem take_append_take_drop (l : List (List Char)) (olns t : Nat) :
    l.take olns ++ (l.drop olns).take (t - olns) = l.take (max olns t) := by
  rcases le_or_lt t olns with hle | hlt
  · rw [Nat.sub_eq_zero_of_le hle]
    simp [Nat.max_eq_left hle]
  · have hmax : max olns t = t := Nat.max_eq_right (le_of_lt hlt)
    calc l.take olns ++ (l.drop olns).take (t - olns)
        = l.take (olns + (t - olns)) := (List.take_add l olns (t - olns)).symm
      _ = l.take (max olns t) := by
          rw [Nat.add_sub_cancel' (le_of_lt hlt), hmax]

theorem applyWalk_inert (origLines : List (List Char)) (ds : List (List Char)) :
    ∀ olns : Nat, (∀ l ∈ ds, inertDiffLine l = true) → olns ≤ origLines.length →
      applyWalk origLines ds olns (origLines.take olns) = origLines := by
  induction ds with
  | nil =>
    intro olns _ _
    simp [applyWalk, List.take_append_drop]
  | cons dl rest ih =>
    intro olns h holns
    have hdl := h dl (List.mem_cons_self dl rest)
    have hrest : ∀ l ∈ rest, inertDiffLine l = true :=
      fun l hl => h l (List.mem_cons_of_mem _ hl)
    by_cases h1 : (startsWith3 '-' dl || startsWith3 '+' dl) = true
    · simp only [applyWalk, h1, if_true]
      exact ih olns hrest holns
    · have h1f : (startsWith3 '-' dl || startsWith3 '+' dl) = false :=
        Bool.eq_false_iff.mpr h1
      by_cases h2 : startsAtAt dl = true
      · rcases hf : findHunk dl with _ | ⟨g1, g2, g3, g4⟩
        · simp only [applyWalk, h1f, Bool.false_eq_true, if_false, h2, if_true, hf]
          exact ih olns hrest holns
        · rcases ha : atoiDigits g1 with _ | startLine
          · simp only [applyWalk, h1f, Bool.false_eq_true, if_false, h2, if_true, hf, ha]
            exact ih olns hrest holns
          · simp only [applyWalk, h1f, Bool.false_eq_true, if_false, h2, if_true, hf, ha]
            rw [take_append_take_drop]
            exact ih _ hrest
              (Nat.max_le.mpr ⟨holns, Nat.min_le_right _ _⟩)
      · have h2f : startsAtAt dl = false := Bool.eq_false_iff.mpr h2
        rcases dl with _ | ⟨c, tl⟩
        · simp only [applyWalk, h1f, Bool.false_eq_true, if_false, h2f]
          exact ih olns hrest holns
        · have hc : (!(c = ' ' || c = '-' || c = '+')) = true := by
            simp only [inertDiffLine, h1f] at hdl
            simpa using hdl
          have hc1 : ¬(c = ' ') := by simp at hc; tauto
          have hc2 : ¬(c = '-') := by simp at hc; tauto
          have hc3 : ¬(c = '+') := by simp at hc; tauto
          simp only [applyWalk, h1f, Bool.false_eq_true, if_false, h2f,
            if_neg hc1, if_neg hc2, if_neg hc3]
          exact ih olns hrest holns

theorem parseWalk_inert (ds : List (List Char)) :
    ∀ (olns col : Int) (lc : Bool) (acc : List LspRange),
      (∀ l ∈ ds, inertDiffLine l = true) →
      parseWalk ds olns col lc acc = acc := by
  induction ds with
  | nil =>
    intro olns col lc acc _
    rfl
  | cons dl rest ih =>
    intro olns col lc acc h
    have hdl := h dl (List.mem_cons_self dl rest)
    have hrest : ∀ l ∈ rest, inertDiffLine l = true :=
      fun l hl => h l (List.mem_cons_of_mem _ hl)
    by_cases h1 : (startsWith3 '-' dl || startsWith3 '+' dl) = true
    · simp only [parseWalk, h1, if_true]
      exact ih _ _ _ _ hrest
    · have h1f : (startsWith3 '-' dl || startsWith3 '+' dl) = false :=
        Bool.eq_false_iff.mpr h1
      by_cases h2 : startsAtAt dl = true
      · rcases hf : findHunk dl with _ | ⟨g1, g2, g3, g4⟩
        · simp only [parseWalk, h1f, Bool.false_eq_true, if_false, h2, if_true, hf]
          exact ih _ _ _ _ hrest
        · simp only [parseWalk, h1f, Bool.false_eq_true, if_false, h2, if_true, hf]
          exact ih _ _ _ _ hrest
      · have h2f : startsAtAt dl = false := Bool.eq_false_iff.mpr h2
        rcases dl with _ | ⟨c, tl⟩
        · simp only [parseWalk, h1f, Bool.false_eq_true, if_false, h2f]
          exact ih _ _ _ _ hrest
        · have hc : (!(c = ' ' || c = '-' || c = '+')) = true := by
            simp only [inertDiffLine, h1f] at hdl
            simpa using hdl
          have hc1 : ¬(c = ' ') := by simp at hc; tauto
          have hc2 : ¬(c = '-') := by simp at hc; tauto
          have hc3 : ¬(c = '+') := by simp at hc; tauto
          simp only [parseWalk, h1f, Bool.false_eq_true, if_false, h2f,
            if_neg hc2, if_neg hc3, if_neg hc1]
          exact ih _ _ _ _ hrest

theorem applyWalk_spaces (origLines : List (List Char)) (h : origLines ≠ []) :
    applyWalk origLines [[' ', ' ', ' '], [], []] 0 [] = origLines := by
  have hlen : 0 < origLines.length := List.length_pos.mpr h
  rcases origLines with _ | ⟨a, rest⟩
  · exact absurd rfl h
  · simp [applyWalk, startsWith3, startsAtAt]

theorem foldl_collectStep_fst (runs : List ProviderRun) :
    ∀ acc : List Diagnostic × List String,
      (runs.foldl collectStep acc).1 = acc.1 ++ (runs.filterMap okDiags).flatten := by
  induction runs with
  | nil => intro acc; simp
  | cons r rest ih =>
    intro acc
    rcases hr : r.analyzeResult with e | ds
    · simp [List.foldl_cons, collectStep, hr, ih, okDiags]
    · simp [List.foldl_cons, collectStep, hr, ih, okDiags]

theorem foldl_collectStep_snd (runs : List ProviderRun) :
    ∀ acc : List Diagnostic × List String,
      (runs.foldl collectStep acc).2 = acc.2 ++ runs.filterMap failMsg := by
  induction runs with
  | nil => intro acc; simp
  | cons r rest ih =>
    intro acc
    rcases hr : r.analyzeResult with e | ds
    · simp [List.foldl_cons, collectStep, hr, ih, failMsg]
    · simp [List.foldl_cons, collectStep, hr, ih, failMsg]

theorem collectDiagnostics_fst (filePath : String) (runs : List ProviderRun)
    (hig : pathIgnored filePath = false) :
    (collectDiagnostics filePath runs).1 = (runs.filterMap okDiags).flatten := by
  rcases runs with _ | ⟨r, rest⟩
  · simp [collectDiagnostics, hig]
  · simp only [collectDiagnostics, hig, Bool.false_eq_true, if_false, List.isEmpty_cons]
    rw [foldl_collectStep_fst]
    simp

theorem collectDiagnostics_snd (filePath : String) (runs : List ProviderRun)
    (hig : pathIgnored filePath = false) :
    (collectDiagnostics filePath runs).2 = runs.filterMap failMsg := by
  rcases runs with _ | ⟨r, rest⟩
  · simp [collectDiagnostics, hig]
  · simp only [collectDiagnostics, hig, Bool.false_eq_true, if_false, List.isEmpty_cons]
    rw [foldl_collectStep_snd]
    simp

theorem runTrace_append (xs ys : List SchedEvent) :
    ∀ s : SchedState,
      runTrace s (xs ++ ys) =
        ((runTrace (runTrace s xs).1 ys).1,
         (runTrace s xs).2 ++ (runTrace (runTrace s xs).1 ys).2) := by
  induction xs with
  | nil => intro s; simp [runTrace]
  | cons e es ih =>
    intro s
    simp only [List.cons_append, runTrace, List.append_eq]
    rw [ih ((step s e).1)]
    simp [runTrace]

/-- Operation `o1` is dead in state `s`: not running and not the pending
timer of any key, so it can never be fired or published again unless it
is rescheduled. -/
def notLive (o1 : Nat) (s : SchedState) : Prop :=
  s.running o1 = none ∧ ∀ k2, s.pending k2 ≠ some o1

/-- Operation `o1` is not running and pending at most as the timer of key
`k` (the situation between `schedule k o1` and either its firing or its
replacement). -/
def notLiveExcept (o1 : Nat) (k : SchedKey) (s : SchedState) : Prop :=
  s.running o1 = none ∧ ∀ k2, k2 ≠ k → s.pending k2 ≠ some o1

theorem step_notLive (o1 : Nat) (s : SchedState) (e : SchedEvent)
    (hs : notLive o1 s) (he : isScheduleOf o1 e = false) :
    notLive o1 (step s e).1 ∧ ∀ p, (step s e).2 = some p → p.opId ≠ o1 := by
  obtain ⟨hrun, hpend⟩ := hs
  rcases e with ⟨k2, o⟩ | ⟨k2, o⟩ | o
  · have ho : o ≠ o1 := by simpa [isScheduleOf] using he
    refine ⟨⟨by simpa [step] using hrun, ?_⟩, by simp [step]⟩
    intro k3
    by_cases hk : k3 = k2 <;> simp [step, hk, ho, hpend k3]
  · by_cases hp : s.pending k2 = some o
    · have ho : o ≠ o1 := by
        intro hoeq
        exact hpend k2 (hoeq ▸ hp)
      rcases hg : s.opGen o with _ | kg
      · simp only [step, hp, if_true, hg]
        exact ⟨⟨hrun, hpend⟩, by simp⟩
      · refine ⟨⟨?_, ?_⟩, by simp [step, hp, hg]⟩
        · simpa [step, hp, hg, Ne.symm ho] using hrun
        · intro k3
          by_cases hk : k3 = k2 <;> simp [step, hp, hg, hk, hpend k3]
    · simp only [step, hp, if_false]
      exact ⟨⟨hrun, hpend⟩, by simp⟩
  · by_cases ho : o = o1
    · subst ho
      simp only [step, hrun]
      exact ⟨⟨hrun, hpend⟩, by simp⟩
    · rcases hr : s.running o with _ | ⟨k3, g3⟩
      · simp only [step, hr]
        exact ⟨⟨hrun, hpend⟩, by simp⟩
      · refine ⟨⟨by simpa [step, hr, Ne.symm ho] using hrun, fun k4 => by simp [step, hr, hpend k4]⟩, ?_⟩
        intro p hp
        simp only [step, hr] at hp
        rcases hgen : decide (s.gen k3 = g3) with _ | _
        · rw [if_neg (of_decide_eq_false hgen)] at hp
          exact absurd hp (by simp)
        · rw [if_pos (of_decide_eq_true hgen)] at hp
          have : p = { key := k3, opId := o } := by
            injection hp with h2
            exact h2.symm
          rw [this]
          exact ho

theorem step_notLiveExcept (o1 : Nat) (k : SchedKey) (s : SchedState) (e : SchedEvent)
    (hs : notLiveExcept o1 k s) (he : isScheduleOf o1 e = false)
    (hf : e ≠ SchedEvent.fire k o1) :
    notLiveExcept o1 k (step s e).1 ∧ ∀ p, (step s e).2 = some p → p.opId ≠ o1 := by
  obtain ⟨hrun, hpend⟩ := hs
  rcases e with ⟨k2, o⟩ | ⟨k2, o⟩ | o
  · have ho : o ≠ o1 := by simpa [isScheduleOf] using he
    refine ⟨⟨by simpa [step] using hrun, ?_⟩, by simp [step]⟩
    intro k3 hk3
    by_cases hk : k3 = k2 <;> simp [step, hk, ho, hpend k3 hk3]
  · by_cases hp : s.pending k2 = some o
    · have ho : o ≠ o1 := by
        intro hoeq
        subst hoeq
        have hk2 : k2 ≠ k := by
          intro hkeq
          exact hf (by rw [hkeq])
        exact hpend k2 hk2 hp
      rcases hg : s.opGen o with _ | kg
      · simp only [step, hp, if_true, hg]
        exact ⟨⟨hrun, hpend⟩, by simp⟩
      · refine ⟨⟨?_, ?_⟩, by simp [step, hp, hg]⟩
        · simpa [step, hp, hg, Ne.symm ho] using hrun
        · intro k3 hk3
          by_cases hk : k3 = k2 <;> simp [step, hp, hg, hk, hpend k3 hk3]
    · simp only [step, hp, if_false]
      exact ⟨⟨hrun, hpend⟩, by simp⟩
  · by_cases ho : o = o1
    · subst ho
      simp only [step, hrun]
      exact ⟨⟨hrun, hpend⟩, by simp⟩
    · rcases hr : s.running o with _ | ⟨k3, g3⟩
      · simp only [step, hr]
        exact ⟨⟨hrun, hpend⟩, by simp⟩
      · refine ⟨⟨by simpa [step, hr, Ne.symm ho] using hrun,
          fun k4 hk4 => by simp [step, hr, hpend k4 hk4]⟩, ?_⟩
        intro p hp
        simp only [step, hr] at hp
        rcases hgen : decide (s.gen k3 = g3) with _ | _
        · rw [if_neg (of_decide_eq_false hgen)] at hp
          exact absurd hp (by simp)
        · rw [if_pos (of_decide_eq_true hgen)] at hp
          have : p = { key := k3, opId := o } := by
            injection hp with h2
            exact h2.symm
          rw [this]
          exact ho

theorem runTrace_notLive (o1 : Nat) (es : List SchedEvent) :
    ∀ s : SchedState, notLive o1 s → (∀ e ∈ es, isScheduleOf o1 e = false) →
      notLive o1 (runTrace s es).1 ∧ ∀ p ∈ (runTrace s es).2, p.opId ≠ o1 := by
  induction es with
  | nil =>
    intro s hs _
    exact ⟨hs, by simp [runTrace]⟩
  | cons e rest ih =>
    intro s hs h
    have he := h e (List.mem_cons_self e rest)
    have hrest : ∀ e2 ∈ rest, isScheduleOf o1 e2 = false :=
      fun e2 h2 => h e2 (List.mem_cons_of_mem _ h2)
    obtain ⟨hs2, hpub⟩ := step_notLive o1 s e hs he
    obtain ⟨hs3, hpubs⟩ := ih (step s e).1 hs2 hrest
    refine ⟨by simpa [runTrace] using hs3, ?_⟩
    intro p hp
    simp only [runTrace, List.mem_append] at hp
    rcases hp with hp | hp
    · rcases hsp : (step s e).2 with _ | p2
      · rw [hsp] at hp
        simp at hp
      · rw [hsp] at hp
        simp only [Option.toList_some, List.mem_singleton] at hp
        exact hp ▸ hpub p2 hsp
    · exact hpubs p hp

theorem runTrace_notLiveExcept (o1 : Nat) (k : SchedKey) (es : List SchedEvent) :
    ∀ s : SchedState, notLiveExcept o1 k s →
      (∀ e ∈ es, isScheduleOf o1 e = false) →
      (∀ e ∈ es, e ≠ SchedEvent.fire k o1) →
      notLiveExcept o1 k (runTrace s es).1 ∧ ∀ p ∈ (runTrace s es).2, p.opId ≠ o1 := by
  induction es with
  | nil =>
    intro s hs _ _
    exact ⟨hs, by simp [runTrace]⟩
  | cons e rest ih =>
    intro s hs h hfire
    have he := h e (List.mem_cons_self e rest)
    have hfe := hfire e (List.mem_cons_self e rest)
    have hrest : ∀ e2 ∈ rest, isScheduleOf o1 e2 = false :=
      fun e2 h2 => h e2 (List.mem_cons_of_mem _ h2)
    have hfrest : ∀ e2 ∈ rest, e2 ≠ SchedEvent.fire k o1 :=
      fun e2 h2 => hfire e2 (List.mem_cons_of_mem _ h2)
    obtain ⟨hs2, hpub⟩ := step_notLiveExcept o1 k s e hs he hfe
    obtain ⟨hs3, hpubs⟩ := ih (step s e).1 hs2 hrest hfrest
    refine ⟨by simpa [runTrace] using hs3, ?_⟩
    intro p hp
    simp only [runTrace, List.mem_append] at hp
    rcases hp with hp | hp
    · rcases hsp : (step s e).2 with _ | p2
      · rw [hsp] at hp
        simp at hp
      · rw [hsp] at hp
        simp only [Option.toList_some, List.mem_singleton] at hp
        exact hp ▸ hpub p2 hsp
    · exact hpubs p hp

theorem applyUnifiedDiff_inert (x diff : String)
    (h : ∀ l ∈ splitNL diff.data, inertDiffLine l = true) :
    ApplyUnifiedDiff x diff = (x, none) := by
  unfold ApplyUnifiedDiff
  have h2 : applyWalk (splitNL x.data) (splitNL diff.data) 0 [] = splitNL x.data := by
    simpa using applyWalk_inert (splitNL x.data) (splitNL diff.data) 0 h (Nat.zero_le _)
  rw [h2, joinNL_splitNL, string_mk_data]

/- Claim theorems. -/

/-- C7: applying the diff `@@ -1,3 +1,3 @@\n line 1\n-line 2\n+line TWO\n
line 3` to `line 1\nline 2\nline 3` yields `line 1\nline TWO\nline 3`
with a nil error: the context lines copy the corresponding original
lines, the removed line advances the cursor without emitting, the added
line emits without advancing, and the remaining original lines are copied
after the hunk. -/
theorem c7_apply_unified_diff_scenario :
    ApplyUnifiedDiff "line 1\nline 2\nline 3"
      "@@ -1,3 +1,3 @@\n line 1\n-line 2\n+line TWO\n line 3" =
      ("line 1\nline TWO\nline 3", none) := by
  rfl

/-- C3: evaluation of `parseDiffForDiagnostics` at the claim's diff.  The
code yields exactly one range on 0-indexed line 1 ending at column 6 (the
trimmed length of `line 2`), but the range starts at column 2, not
column 0: the hunk header's original-side line count `3` (capture group 2
of the regexp, documented as "Original line count" by the repository's
own tests) is parsed into `originalColNum` and used as the start
character, while the tests document `Start(line: N, char: 0)`. -/
theorem c3_parse_diff_scenario_eval :
    parseDiffForDiagnostics "@@ -1,3 +1,3 @@\n line 1\n-line 2\n+line TWO\n line 3" =
      [{ start := { line := 1, character := 2 },
         stop := { line := 1, character := 6 } }] ∧
    parseDiffForDiagnostics "@@ -1,3 +1,3 @@\n line 1\n-line 2\n+line TWO\n line 3" ≠
      [{ start := { line := 1, character := 0 },
         stop := { line := 1, character := 6 } }] := by
  exact ⟨rfl, by decide⟩

/-- C6 (counterexample): the header-less diff `+hello` is not tolerated
as "no change": `ApplyUnifiedDiff` prepends the added line to the
original content, and `Diagnose` emits a range for it. -/
theorem c6_counterexample :
    ApplyUnifiedDiff "line 1" "+hello" = ("hello\nline 1", none) ∧
    ("hello\nline 1" : String) ≠ "line 1" ∧
    parseDiffForDiagnostics "+hello" =
      [{ start := { line := 0, character := 0 },
         stop := { line := 0, character := 0 } }] ∧
    parseDiffForDiagnostics "+hello" ≠ [] := by
  exact ⟨rfl, by decide, rfl, by decide⟩

/-- C6 (amended): both operations never raise an error
(`ApplyUnifiedDiff`'s error component is always nil), and a malformed or
header-less diff degrades to "no change" exactly when none of its lines
is a `' '`/`'-'`/`'+'`-prefixed body line (file headers `---`/`+++`,
hunk headers, empty lines and arbitrary garbage lines are all inert):
for such diffs `ApplyUnifiedDiff` returns the original content unchanged
with a nil error and `Diagnose` emits no ranges.  A header-less diff
that does contain body lines is still processed line by line (see the
counterexample). -/
theorem c6_inert_diff_degrades :
    ∀ x diff : String,
      (∀ l ∈ splitNL diff.data, inertDiffLine l = true) →
      ApplyUnifiedDiff x diff = (x, none) ∧ parseDiffForDiagnostics diff = [] := by
  intro x diff h
  exact ⟨applyUnifiedDiff_inert x diff h, parseWalk_inert _ _ _ _ _ h⟩

theorem c6_inert_diff_degrades_witness :
    (∀ l ∈ splitNL ("--- a/f.php\n+++ b/f.php\n@@ -1,2 +1,2 @@\njunk" : String).data,
      inertDiffLine l = true) ∧
    (ApplyUnifiedDiff "line A\nline B" "--- a/f.php\n+++ b/f.php\n@@ -1,2 +1,2 @@\njunk" =
      ("line A\nline B", none) ∧
     parseDiffForDiagnostics "--- a/f.php\n+++ b/f.php\n@@ -1,2 +1,2 @@\njunk" = []) :=
  ⟨by decide,
   c6_inert_diff_degrades "line A\nline B"
     "--- a/f.php\n+++ b/f.php\n@@ -1,2 +1,2 @@\njunk" (by decide)⟩

/-- C8: the empty diff and the whitespace-only diff `   \n\n` are
identities of `ApplyUnifiedDiff` for every original content, with a nil
error.  (The three-space line is processed as a context line, which
copies the current original line, so the identity is preserved.) -/
theorem c8_noop_diff :
    ∀ x : String,
      ApplyUnifiedDiff x "" = (x, none) ∧ ApplyUnifiedDiff x "   \n\n" = (x, none) := by
  intro x
  constructor
  · exact applyUnifiedDiff_inert x "" (by decide)
  · unfold ApplyUnifiedDiff
    have hs : splitNL ("   \n\n" : String).data = [[' ', ' ', ' '], [], []] := by decide
    rw [hs, applyWalk_spaces (splitNL x.data) (splitNL_ne_nil _), joinNL_splitNL,
      string_mk_data]

/-- C2 (counterexample): on the start-failure path the gateway returns a
`CommandResult` whose `Stdout` and `Stderr` are literal `nil` (the source
writes `Stdout: nil, Stderr: nil`), so the buffers are not non-nil on
every return path. -/
theorem c2_counterexample :
    (RunCommandInContainer "app" "php-cs-fixer fix src" none
        { startErr := some "exec: docker: not found",
          outcome := RaceOutcome.completed CmdWaitResult.ok,
          stdoutBytes := [], stderrBytes := [] }).1.Stdout = none ∧
    (RunCommandInContainer "app" "php-cs-fixer fix src" none
        { startErr := some "exec: docker: not found",
          outcome := RaceOutcome.completed CmdWaitResult.ok,
          stdoutBytes := [], stderrBytes := [] }).1.Stderr = none := by
  exact ⟨rfl, rfl⟩

/-- C2 (amended): for every container name, command string, optional
stdin and environment, on every return path other than start failure the
returned `Stdout`/`Stderr` are exactly the captured buffer contents (in
particular non-nil whenever anything was captured); on start failure both
are nil and the exit code is -1 with a wrapped start error. -/
theorem c2_buffers :
    ∀ (name cmd : String) (stdin : Option String) (env : ExecEnv),
      (env.startErr = none →
        (RunCommandInContainer name cmd stdin env).1.Stdout = bufBytes env.stdoutBytes ∧
        (RunCommandInContainer name cmd stdin env).1.Stderr = bufBytes env.stderrBytes ∧
        (env.stdoutBytes ≠ [] → (RunCommandInContainer name cmd stdin env).1.Stdout ≠ none) ∧
        (env.stderrBytes ≠ [] → (RunCommandInContainer name cmd stdin env).1.Stderr ≠ none)) ∧
      (∀ e, env.startErr = some e →
        (RunCommandInContainer name cmd stdin env).1.Stdout = none ∧
        (RunCommandInContainer name cmd stdin env).1.Stderr = none ∧
        (RunCommandInContainer name cmd stdin env).1.ExitCode = -1 ∧
        (RunCommandInContainer name cmd stdin env).1.Err = some (GoErr.startFailed e)) := by
  intro name cmd stdin env
  rcases env with ⟨se, oc, so, sb⟩
  constructor
  · intro h
    simp only at h
    subst h
    have hso : so ≠ [] → bufBytes so ≠ none := by
      intro hne
      simp [bufBytes, hne]
    have hsb : sb ≠ [] → bufBytes sb ≠ none := by
      intro hne
      simp [bufBytes, hne]
    rcases oc with w | ce
    · rcases w with _ | code | msg <;>
        exact ⟨rfl, rfl, fun hne => hso hne, fun hne => hsb hne⟩
    · exact ⟨rfl, rfl, fun hne => hso hne, fun hne => hsb hne⟩
  · intro e h
    simp only at h
    subst h
    exact ⟨rfl, rfl, rfl, rfl⟩

theorem c2_buffers_witness :
    (({ startErr := none, outcome := RaceOutcome.completed CmdWaitResult.ok,
        stdoutBytes := ['o', 'k'], stderrBytes := [] } : ExecEnv).startErr = none) ∧
    ((RunCommandInContainer "app" "phpstan analyse" none
        { startErr := none, outcome := RaceOutcome.completed CmdWaitResult.ok,
          stdoutBytes := ['o', 'k'], stderrBytes := [] }).1.Stdout =
      bufBytes ['o', 'k'] ∧
     (RunCommandInContainer "app" "phpstan analyse" none
        { startErr := none, outcome := RaceOutcome.completed CmdWaitResult.ok,
          stdoutBytes := ['o', 'k'], stderrBytes := [] }).1.Stderr = bufBytes [] ∧
     (['o', 'k'] ≠ ([] : List Char) →
      (RunCommandInContainer "app" "phpstan analyse" none
        { startErr := none, outcome := RaceOutcome.completed CmdWaitResult.ok,
          stdoutBytes := ['o', 'k'], stderrBytes := [] }).1.Stdout ≠ none) ∧
     (([] : List Char) ≠ [] →
      (RunCommandInContainer "app" "phpstan analyse" none
        { startErr := none, outcome := RaceOutcome.completed CmdWaitResult.ok,
          stdoutBytes := ['o', 'k'], stderrBytes := [] }).1.Stderr ≠ none)) :=
  ⟨rfl,
   (c2_buffers "app" "phpstan analyse" none
     { startErr := none, outcome := RaceOutcome.completed CmdWaitResult.ok,
       stdoutBytes := ['o', 'k'], stderrBytes := [] }).1 rfl⟩

/-- C4: when the context is cancelled before the process exits (the
`ctx.Done()` arm of the select fires), the gateway kills the process,
then still waits on the `done` channel before returning, and returns a
result whose error is the cancellation error wrapping `ctx.Err()`
(structurally distinct from a start failure or a tool failure) and whose
buffers hold whatever was produced before the kill. -/
theorem c4_cancellation :
    ∀ (name cmd : String) (stdin : Option String) (env : ExecEnv) (ce : String),
      env.startErr = none →
      env.outcome = RaceOutcome.ctxCancelled ce →
      (RunCommandInContainer name cmd stdin env).1.Err = some (GoErr.cancelled ce) ∧
      (∀ m, GoErr.cancelled ce ≠ GoErr.waitFailed m) ∧
      (∀ m, GoErr.cancelled ce ≠ GoErr.startFailed m) ∧
      (RunCommandInContainer name cmd stdin env).1.Stdout = bufBytes env.stdoutBytes ∧
      (RunCommandInContainer name cmd stdin env).1.Stderr = bufBytes env.stderrBytes ∧
      (RunCommandInContainer name cmd stdin env).2 =
        [ProcEvent.start, ProcEvent.kill, ProcEvent.waitDone] := by
  intro name cmd stdin env ce h1 h2
  rcases env with ⟨se, oc, so, sb⟩
  simp only at h1 h2
  subst h1
  subst h2
  refine ⟨rfl, ?_, ?_, rfl, rfl, rfl⟩
  · intro m h
    cases h
  · intro m h
    cases h

theorem c4_cancellation_witness :
    (({ startErr := none, outcome := RaceOutcome.ctxCancelled "context canceled",
        stdoutBytes := ['p'], stderrBytes := [] } : ExecEnv).startErr = none) ∧
    (({ startErr := none, outcome := RaceOutcome.ctxCancelled "context canceled",
        stdoutBytes := ['p'], stderrBytes := [] } : ExecEnv).outcome =
      RaceOutcome.ctxCancelled "context canceled") ∧
    ((RunCommandInContainer "app" "php -l" none
        { startErr := none, outcome := RaceOutcome.ctxCancelled "context canceled",
          stdoutBytes := ['p'], stderrBytes := [] }).1.Err =
      some (GoErr.cancelled "context canceled") ∧
     (∀ m, GoErr.cancelled "context canceled" ≠ GoErr.waitFailed m) ∧
     (∀ m, GoErr.cancelled "context canceled" ≠ GoErr.startFailed m) ∧
     (RunCommandInContainer "app" "php -l" none
        { startErr := none, outcome := RaceOutcome.ctxCancelled "context canceled",
          stdoutBytes := ['p'], stderrBytes := [] }).1.Stdout = bufBytes ['p'] ∧
     (RunCommandInContainer "app" "php -l" none
        { startErr := none, outcome := RaceOutcome.ctxCancelled "context canceled",
          stdoutBytes := ['p'], stderrBytes := [] }).1.Stderr = bufBytes [] ∧
     (RunCommandInContainer "app" "php -l" none
        { startErr := none, outcome := RaceOutcome.ctxCancelled "context canceled",
          stdoutBytes := ['p'], stderrBytes := [] }).2 =
       [ProcEvent.start, ProcEvent.kill, ProcEvent.waitDone]) :=
  ⟨rfl, rfl,
   c4_cancellation "app" "php -l" none
     { startErr := none, outcome := RaceOutcome.ctxCancelled "context canceled",
       stdoutBytes := ['p'], stderrBytes := [] } "context canceled" rfl rfl⟩

/-- C5: when the process completes normally with a non-zero exit status,
the result carries that status structurally in `ExitCode` with a nil
`Err`; consequently `PhpCsFixer.Format` can branch on it, treating exit
code 8 (changes found) as success — proceeding to diff application — and
any other non-zero code as a failure with a structural exit-code error. -/
theorem c5_structural_exit_code :
    ∀ (name cmd : String) (stdin : Option String) (env : ExecEnv) (code : Int)
      (content : String),
      env.startErr = none →
      env.outcome = RaceOutcome.completed (CmdWaitResult.exitStatus code) →
      (RunCommandInContainer name cmd stdin env).1.ExitCode = code ∧
      (RunCommandInContainer name cmd stdin env).1.Err = none ∧
      (code = 8 →
        phpCsFixerFormat true content none (RunCommandInContainer name cmd stdin env).1 =
          phpCsFixerApplyStage content (RunCommandInContainer name cmd stdin env).1.Stdout) ∧
      (code ≠ 0 → code ≠ 8 →
        phpCsFixerFormat true content none (RunCommandInContainer name cmd stdin env).1 =
          (content, some (FormatErr.exitFailure code))) := by
  intro name cmd stdin env code content h1 h2
  rcases env with ⟨se, oc, so, sb⟩
  simp only at h1 h2
  subst h1
  subst h2
  refine ⟨rfl, rfl, ?_, ?_⟩
  · intro h8
    subst h8
    simp [phpCsFixerFormat, RunCommandInContainer]
  · intro hnz hn8
    simp [phpCsFixerFormat, RunCommandInContainer, hnz, hn8]

theorem c5_structural_exit_code_witness :
    (({ startErr := none,
        outcome := RaceOutcome.completed (CmdWaitResult.exitStatus 8),
        stdoutBytes := [], stderrBytes := [] } : ExecEnv).startErr = none) ∧
    (({ startErr := none,
        outcome := RaceOutcome.completed (CmdWaitResult.exitStatus 8),
        stdoutBytes := [], stderrBytes := [] } : ExecEnv).outcome =
      RaceOutcome.completed (CmdWaitResult.exitStatus 8)) ∧
    ((RunCommandInContainer "app" "php-cs-fixer fix -" none
        { startErr := none,
          outcome := RaceOutcome.completed (CmdWaitResult.exitStatus 8),
          stdoutBytes := [], stderrBytes := [] }).1.ExitCode = 8 ∧
     (RunCommandInContainer "app" "php-cs-fixer fix -" none
        { startErr := none,
          outcome := RaceOutcome.completed (CmdWaitResult.exitStatus 8),
          stdoutBytes := [], stderrBytes := [] }).1.Err = none ∧
     ((8 : Int) = 8 →
       phpCsFixerFormat true "<?php" none
         (RunCommandInContainer "app" "php-cs-fixer fix -" none
           { startErr := none,
             outcome := RaceOutcome.completed (CmdWaitResult.exitStatus 8),
             stdoutBytes := [], stderrBytes := [] }).1 =
         phpCsFixerApplyStage "<?php"
           (RunCommandInContainer "app" "php-cs-fixer fix -" none
             { startErr := none,
               outcome := RaceOutcome.completed (CmdWaitResult.exitStatus 8),
               stdoutBytes := [], stderrBytes := [] }).1.Stdout) ∧
     ((8 : Int) ≠ 0 → (8 : Int) ≠ 8 →
       phpCsFixerFormat true "<?php" none
         (RunCommandInContainer "app" "php-cs-fixer fix -" none
           { startErr := none,
             outcome := RaceOutcome.completed (CmdWaitResult.exitStatus 8),
             stdoutBytes := [], stderrBytes := [] }).1 =
         ("<?php", some (FormatErr.exitFailure 8)))) :=
  ⟨rfl, rfl,
   c5_structural_exit_code "app" "php-cs-fixer fix -" none
     { startErr := none,
       outcome := RaceOutcome.completed (CmdWaitResult.exitStatus 8),
       stdoutBytes := [], stderrBytes := [] } 8 "<?php" rfl rfl⟩

/-- C10: every diagnostics publication carries a non-nil diagnostics
array: `EnsureDiagnosticsArray` maps the nil slice to a fresh empty
(length-0, non-nil) slice and returns any other slice unchanged, so the
parameters built by `publishDiagnostics` never contain a nil list. -/
theorem c10_never_nil_diagnostics :
    EnsureDiagnosticsArray none = some [] ∧
    (∀ l : List Diagnostic, EnsureDiagnosticsArray (some l) = some l) ∧
    (∀ (uri : String) (ds : Option (List Diagnostic)),
      (publishDiagnostics uri ds).Diagnostics ≠ none) ∧
    (∀ uri : String, (publishDiagnostics uri none).Diagnostics = some []) := by
  refine ⟨rfl, fun l => rfl, ?_, fun uri => rfl⟩
  intro uri ds
  cases ds <;> simp [publishDiagnostics, EnsureDiagnosticsArray]

/-- C9: for any non-ignored file path and any set of provider runs, under
every completion order (permutation) of the concurrent provider
goroutines, the aggregate result contains every diagnostic of every
succeeding provider, and each failing provider contributes exactly its
side-channel window message — a failure never removes another provider's
results or aborts the aggregate. -/
theorem c9_partial_failure_isolation :
    ∀ (filePath : String) (runs order : List ProviderRun),
      List.Perm order runs →
      pathIgnored filePath = false →
      (∀ r ∈ runs, ∀ ds, r.analyzeResult = Except.ok ds →
        ∀ d ∈ ds, d ∈ (collectDiagnostics filePath order).1) ∧
      (∀ r ∈ runs, ∀ e, r.analyzeResult = Except.error e →
        ("Diagnostics provider " ++ r.name ++ " failed: " ++ e) ∈
          (collectDiagnostics filePath order).2) := by
  intro filePath runs order hperm hig
  constructor
  · intro r hr ds hds d hd
    rw [collectDiagnostics_fst filePath order hig]
    refine List.mem_flatten.mpr ⟨ds, ?_, hd⟩
    exact List.mem_filterMap.mpr ⟨r, hperm.mem_iff.mpr hr, by simp [okDiags, hds]⟩
  · intro r hr e he
    rw [collectDiagnostics_snd filePath order hig]
    exact List.mem_filterMap.mpr ⟨r, hperm.mem_iff.mpr hr, by simp [failMsg, he]⟩

theorem runTrace_append_snd (xs ys : List SchedEvent) (s : SchedState) :
    (runTrace s (xs ++ ys)).2 =
      (runTrace s xs).2 ++ (runTrace (runTrace s xs).1 ys).2 := by
  rw [runTrace_append]

theorem runTrace_cons_snd (s : SchedState) (e : SchedEvent) (es : List SchedEvent) :
    (runTrace s (e :: es)).2 = (step s e).2.toList ++ (runTrace (step s e).1 es).2 := by
  rfl

theorem c9_partial_failure_isolation_witness :
    List.Perm [runB, runA, runD] [runA, runB, runD] ∧
    pathIgnored "/src/Controller/AppController.php" = false ∧
    diagA ∈ (collectDiagnostics "/src/Controller/AppController.php" [runB, runA, runD]).1 ∧
    diagB ∈ (collectDiagnostics "/src/Controller/AppController.php" [runB, runA, runD]).1 ∧
    ("Diagnostics provider " ++ runB.name ++ " failed: " ++ "container not running") ∈
      (collectDiagnostics "/src/Controller/AppController.php" [runB, runA, runD]).2 := by
  have H := c9_partial_failure_isolation "/src/Controller/AppController.php"
    [runA, runB, runD] [runB, runA, runD] (List.Perm.swap runA runB [runD]) rfl
  refine ⟨List.Perm.swap runA runB [runD], rfl, ?_, ?_, ?_⟩
  · exact H.1 runA (by simp) [diagA] rfl diagA (by simp)
  · exact H.1 runD (by simp) [diagB] rfl diagB (by simp)
  · exact H.2 runB (by simp) "container not running" rfl

/-- C1: the generation fence of the debounced scheduler (modelled from
the spec, the scheduler source being absent from the snapshot).  First, a
completed operation's result is published iff its captured generation
still equals the key's current generation at completion time.  Second,
given two schedules for the same (uri, kind) key where the second is
issued before the first's timer fires, no result of the first operation
is ever published in the whole history, regardless of which work
finishes first. -/
theorem c1_generation_fencing :
    (∀ (s : SchedState) (o : Nat) (k : SchedKey) (g : Nat),
        s.running o = some (k, g) →
        ((step s (SchedEvent.finish o)).2 = some { key := k, opId := o } ↔ s.gen k = g)) ∧
    (∀ (pre mid post : List SchedEvent) (k : SchedKey) (o1 o2 : Nat),
        o1 ≠ o2 →
        (∀ e ∈ pre ++ mid ++ post, isScheduleOf o1 e = false) →
        (∀ e ∈ mid, e ≠ SchedEvent.fire k o1) →
        ∀ p ∈ (runTrace initState
            (pre ++ SchedEvent.schedule k o1 ::
              (mid ++ SchedEvent.schedule k o2 :: post))).2,
          p.opId ≠ o1) := by
  constructor
  · intro s o k g hr
    by_cases hg : s.gen k = g
    · simp [step, hr, hg]
    · simp [step, hr, hg]
  · intro pre mid post k o1 o2 hne hsch hfire p hp
    have hsch_pre : ∀ e ∈ pre, isScheduleOf o1 e = false :=
      fun e he => hsch e (by simp [he])
    have hsch_mid : ∀ e ∈ mid, isScheduleOf o1 e = false :=
      fun e he => hsch e (by simp [he])
    have hsch_post : ∀ e ∈ post, isScheduleOf o1 e = false :=
      fun e he => hsch e (by simp [he])
    have h0 : notLive o1 initState := ⟨rfl, fun k2 => by simp [initState]⟩
    obtain ⟨h1live, h1pub⟩ := runTrace_notLive o1 pre initState h0 hsch_pre
    have h2live : notLiveExcept o1 k
        ((step (runTrace initState pre).1 (SchedEvent.schedule k o1)).1) := by
      constructor
      · simpa [step] using h1live.1
      · intro k2 hk2
        simpa [step, hk2] using h1live.2 k2
    obtain ⟨h3live, h3pub⟩ :=
      runTrace_notLiveExcept o1 k mid
        ((step (runTrace initState pre).1 (SchedEvent.schedule k o1)).1)
        h2live hsch_mid hfire
    have h4live : notLive o1
        ((step (runTrace
            ((step (runTrace initState pre).1 (SchedEvent.schedule k o1)).1) mid).1
          (SchedEvent.schedule k o2)).1) := by
      constructor
      · simpa [step] using h3live.1
      · intro k2
        by_cases hk : k2 = k
        · subst hk
          simp [step, Ne.symm hne]
        · simpa [step, hk] using h3live.2 k2 hk
    obtain ⟨_, h5pub⟩ :=
      runTrace_notLive o1 post
        ((step (runTrace
            ((step (runTrace initState pre).1 (SchedEvent.schedule k o1)).1) mid).1
          (SchedEvent.schedule k o2)).1)
        h4live hsch_post
    rw [runTrace_append_snd pre _ initState] at hp
    rw [runTrace_cons_snd] at hp
    rw [runTrace_append_snd mid _ _] at hp
    rw [runTrace_cons_snd] at hp
    have hstep1 : (step (runTrace initState pre).1 (SchedEvent.schedule k o1)).2 = none := by
      simp [step]
    have hstep2 : (step (runTrace
        ((step (runTrace initState pre).1 (SchedEvent.schedule k o1)).1) mid).1
        (SchedEvent.schedule k o2)).2 = none := by
      simp [step]
    rw [hstep1, hstep2] at hp
    simp only [Option.toList_none, List.nil_append, List.mem_append] at hp
    rcases hp with hp | hp | hp
    · exact h1pub p hp
    · exact h3pub p hp
    · exact h5pub p hp

theorem c1_generation_fencing_witness :
    (demoState.running 1 = some (demoKey, 5) ∧
     ((step demoState (SchedEvent.finish 1)).2 = some { key := demoKey, opId := 1 } ↔
       demoState.gen demoKey = 5)) ∧
    ((1 : Nat) ≠ 2 ∧
     (∀ e ∈ ([] : List SchedEvent) ++ [] ++
        [SchedEvent.fire demoKey 2, SchedEvent.finish 2], isScheduleOf 1 e = false) ∧
     (∀ e ∈ ([] : List SchedEvent), e ≠ SchedEvent.fire demoKey 1) ∧
     ({ key := demoKey, opId := 2 } : Publication) ∈
       (runTrace initState
         ([] ++ SchedEvent.schedule demoKey 1 ::
           ([] ++ SchedEvent.schedule demoKey 2 ::
             [SchedEvent.fire demoKey 2, SchedEvent.finish 2]))).2 ∧
     ∀ p ∈ (runTrace initState
         ([] ++ SchedEvent.schedule demoKey 1 ::
           ([] ++ SchedEvent.schedule demoKey 2 ::
             [SchedEvent.fire demoKey 2, SchedEvent.finish 2]))).2,
       p.opId ≠ 1) :=
  ⟨⟨rfl, c1_generation_fencing.1 demoState 1 demoKey 5 rfl⟩,
   ⟨by decide, by decide, by decide, by decide,
    c1_generation_fencing.2 [] [] [SchedEvent.fire demoKey 2, SchedEvent.finish 2]
      demoKey 1 2 (by decide) (by decide) (by decide)⟩⟩
